import Mathlib

/-!
Shallow embedding of `ethdrain.py` (chunked concurrent ingestion pipeline):
the chunk partitioner, the block/transaction normalizer, the per-block fetch
wrapper with its error discrimination, a sequential linearization of the
chunk runner, the chunk bulk committer, the admission-gate semaphore, and the
input-file line filter.  Python machine integers are unbounded, so they are
modelled by `Int`/`Nat`; Python float arithmetic on transaction values is
modelled exactly over `ℚ` (every value exercised by the theorems below is
exactly representable, e.g. 10^18 and its quotients).
-/

namespace Ethdrain

/-- Equality of `Except` values is decidable componentwise. -/
instance {e a : Type} [DecidableEq e] [DecidableEq a] : DecidableEq (Except e a) := fun x y =>
  match x, y with
  | .ok v, .ok w =>
    if h : v = w then .isTrue (by rw [h]) else .isFalse (by intro hc; cases hc; exact h rfl)
  | .error v, .error w =>
    if h : v = w then .isTrue (by rw [h]) else .isFalse (by intro hc; cases hc; exact h rfl)
  | .ok _, .error _ => .isFalse (by intro hc; cases hc)
  | .error _, .ok _ => .isFalse (by intro hc; cases hc)

/-- Python exceptions that the pipeline can raise or catch:
`KeyError` (missing dict key, carrying the key), `ValueError` (bad numeric
literal, bad `range` step, `max` of an empty list), and the two network
exceptions named in the `except` clause of `fetch` (line 58):
`aiohttp.ClientError` and `asyncio.TimeoutError`. -/
inductive PyExc where
  | keyError : String → PyExc
  | valueError : PyExc
  | clientError : PyExc
  | timeoutError : PyExc
deriving DecidableEq

/-- The exception classes caught by the `except` clause of `fetch`
(line 58: `aiohttp.ClientError, asyncio.TimeoutError`). -/
def isNetworkExc : PyExc → Bool
  | .clientError => true
  | .timeoutError => true
  | _ => false

/-! ### Python numeric-literal parsing

`process_block` parses wire fields with `int(s, 0)` (sign, then a base tag:
`0x`/`0X` hex, `0b`/`0B` binary, `0o`/`0O` octal, otherwise decimal with no
leading zero); the input-file path uses plain `int(s)` (base 10, leading
zeros allowed).  Both tolerate surrounding whitespace.  Underscore digit
separators are not modelled (never exercised by this code base). -/

/-- Value of a hexadecimal digit character. -/
def hexVal (c : Char) : Option Nat :=
  if '0' ≤ c ∧ c ≤ '9' then some (c.toNat - '0'.toNat)
  else if 'a' ≤ c ∧ c ≤ 'f' then some (c.toNat - 'a'.toNat + 10)
  else if 'A' ≤ c ∧ c ≤ 'F' then some (c.toNat - 'A'.toNat + 10)
  else none

/-- Value of a digit character in base `b ≤ 10`. -/
def decVal (b : Nat) (c : Char) : Option Nat :=
  if '0' ≤ c ∧ c.toNat - '0'.toNat < b then some (c.toNat - '0'.toNat) else none

/-- Accumulate a digit string left to right; `none` on a non-digit. -/
def digitsVal (digit : Char → Option Nat) (base : Nat) (acc : Nat) :
    List Char → Option Nat
  | [] => some acc
  | c :: rest =>
    match digit c with
    | some d => digitsVal digit base (acc * base + d) rest
    | none => none

/-- Parse a non-empty digit string in the given base; `ValueError` otherwise. -/
def parseDigits (digit : Char → Option Nat) (base : Nat) (cs : List Char) :
    Except PyExc Nat :=
  if cs = [] then .error .valueError
  else
    match digitsVal digit base 0 cs with
    | some n => .ok n
    | none => .error .valueError

/-- Unsigned part of Python `int(s, 0)`: a base tag selects the base;
an untagged numeral is decimal and may not have a leading zero
(except the numeral consisting only of zeros, which is 0). -/
def pyIntUnsigned0 (cs : List Char) : Except PyExc Nat :=
  match cs with
  | '0' :: x :: rest =>
    if x = 'x' ∨ x = 'X' then parseDigits hexVal 16 rest
    else if x = 'b' ∨ x = 'B' then parseDigits (decVal 2) 2 rest
    else if x = 'o' ∨ x = 'O' then parseDigits (decVal 8) 8 rest
    else if (x :: rest).all (· = '0') then .ok 0
    else .error .valueError
  | cs => parseDigits (decVal 10) 10 cs

/-- Python `str.strip()` on the character list: drop leading and trailing
whitespace (the ASCII whitespace of `Char.isWhitespace` covers every input
exercised here). -/
def pyStrip (cs : List Char) : List Char :=
  ((cs.dropWhile Char.isWhitespace).reverse.dropWhile Char.isWhitespace).reverse

/-- Python `int(s, 0)`: strip surrounding whitespace, optional sign,
then the base-tagged unsigned numeral. -/
def pyIntBase0 (s : String) : Except PyExc Int :=
  match pyStrip s.data with
  | '-' :: rest => do
    let n ← pyIntUnsigned0 rest
    return -(n : Int)
  | '+' :: rest => do
    let n ← pyIntUnsigned0 rest
    return (n : Int)
  | cs => do
    let n ← pyIntUnsigned0 cs
    return (n : Int)

/-- Python `int(s)` (base 10): strip surrounding whitespace, optional sign,
a non-empty decimal digit string (leading zeros allowed). -/
def pyIntBase10 (s : String) : Except PyExc Int :=
  match pyStrip s.data with
  | '-' :: rest => do
    let n ← parseDigits (decVal 10) 10 rest
    return -(n : Int)
  | '+' :: rest => do
    let n ← parseDigits (decVal 10) 10 rest
    return (n : Int)
  | cs => do
    let n ← parseDigits (decVal 10) 10 cs
    return (n : Int)

/-! ### The chunk partitioner (lines 34-36)

    def chunks(lst, nb_chunks):
        for i in range(0, len(lst), nb_chunks):
            yield lst[i:i + nb_chunks]
-/

/-- Python `range(0, stop, step)` with `stop = len(lst) ≥ 0`:
a zero step raises `ValueError` as soon as the generator is advanced; a
negative step counts down from 0 and `0 > stop` never holds for a
natural `stop`, so the sequence is empty; a positive step yields
`0, step, 2*step, …` strictly below `stop`, i.e. `⌈stop/step⌉` values. -/
def pyRange (stop : Nat) (step : Int) : Except PyExc (List Nat) :=
  if step = 0 then .error .valueError
  else if step < 0 then .ok []
  else .ok ((List.range ((stop + step.toNat - 1) / step.toNat)).map (· * step.toNat))

/-- Python slice `lst[i:i+n]` for `i, n ≥ 0`. -/
def pySlice (lst : List α) (i n : Nat) : List α :=
  (lst.drop i).take n

/-- The partitioner `chunks` (lines 34-36), with the generator fully
materialized as the caller does at line 176 (`list(chunks(...))`). -/
def chunks (lst : List α) (nb_chunks : Int) : Except PyExc (List (List α)) :=
  (pyRange lst.length nb_chunks).map
    (fun idxs => idxs.map (fun i => pySlice lst i nb_chunks.toNat))

/-- Recursive reformulation of positive-size chunking; the size parameter is
`c + 1` so that the recursion visibly consumes the list. -/
def chunkCore (l : List α) (c : Nat) : List (List α) :=
  match l with
  | [] => []
  | x :: xs => (x :: xs).take (c + 1) :: chunkCore ((x :: xs).drop (c + 1)) c
termination_by l.length
decreasing_by simp [List.length_drop]; omega

/-! ### The block/transaction normalizer (lines 83-113)

`process_block(block, actions)` takes the decoded JSON-RPC response and the
worker's shared `actions` list, and appends one index action per transaction
plus one for the block.  Dictionary fields that the code reads are modelled as
`Option`-valued structure fields (`none` = key absent, giving `KeyError`);
the pass-through fields the code never touches are omitted.  Mutation of the
`actions` list is modelled by returning the extended list; on the success
path (the only path on which `actions` is subsequently used, since an
exception aborts the chunk before the bulk write) this is observationally
identical to the in-place appends of the source. -/

/-- Wire form of one embedded transaction, fields as read at lines 94-102. -/
structure RawTx where
  hash : Option String
  blockNumber : Option String
  value : Option String
deriving DecidableEq

/-- Wire form of one block (`response["result"]`), fields as read at
lines 86-109. -/
structure RawBlock where
  number : Option String
  timestamp : Option String
  gasLimit : Option String
  gasUsed : Option String
  size : Option String
  transactions : Option (List RawTx)
deriving DecidableEq

/-- A decoded JSON-RPC response; `process_block` reads `block["result"]`
(line 84). -/
structure RpcResponse where
  result : Option RawBlock
deriving DecidableEq

/-- `WEI_ETH_FACTOR = 1000000000000000000.0` (line 18), modelled exactly. -/
def WEI_ETH_FACTOR : ℚ := 1000000000000000000

/-- `TX_INDEX_NAME` (line 16). -/
def TX_INDEX_NAME : String := "ethereum-transaction"

/-- `B_INDEX_NAME` (line 17). -/
def B_INDEX_NAME : String := "ethereum-block"

/-- The transaction dict after the mutations of lines 94-97: `blockNumber`
parsed, `blockTimestamp` stamped, `value` converted from wei to ether.
The timestamp is `datetime.datetime.fromtimestamp(seconds)`; the instant is
modelled by its epoch seconds. -/
structure NormalizedTx where
  hash : String
  blockNumber : Int
  blockTimestamp : Int
  value : ℚ
deriving DecidableEq

/-- The block dict after the mutations of lines 104-111. -/
structure NormalizedBlock where
  number : Int
  timestamp : Int
  gasLimit : Int
  gasUsed : Int
  size : Int
  transactionCount : Nat
  txValueSum : ℚ
  transactions : List String
deriving DecidableEq

/-- One Elasticsearch index action.  A `txAction` carries
`_index = TX_INDEX_NAME`, `_type = "tx"`, `_id = tx hash` (line 100);
a `blockAction` carries `_index = B_INDEX_NAME`, `_type = "b"`,
`_id = block number` (line 113). -/
inductive Action where
  | txAction (id : String) (source : NormalizedTx)
  | blockAction (id : Int) (source : NormalizedBlock)
deriving DecidableEq

/-- Python dict subscript `d[k]`: `KeyError k` when the key is absent. -/
def getKey (o : Option α) (k : String) : Except PyExc α :=
  match o with
  | some v => .ok v
  | none => .error (.keyError k)

/-- `int(d[k], 0)`: subscript then parse. -/
def getInt0 (field : Option String) (k : String) : Except PyExc Int := do
  let s ← getKey field k
  pyIntBase0 s

/-- The per-transaction loop of `process_block` (lines 93-102): returns the
transaction index actions, the collected hashes and the running value sum, in
loop order. -/
def processTxs (txs : List RawTx) (blockTimestamp : Int) :
    Except PyExc (List Action × List String × ℚ) :=
  match txs with
  | [] => .ok ([], [], 0)
  | tx :: rest => do
    let txBlockNumber ← getInt0 tx.blockNumber "blockNumber"
    let txValueWei ← getInt0 tx.value "value"
    let txValue : ℚ := (txValueWei : ℚ) / WEI_ETH_FACTOR
    let txHash ← getKey tx.hash "hash"
    let ntx : NormalizedTx :=
      { hash := txHash, blockNumber := txBlockNumber,
        blockTimestamp := blockTimestamp, value := txValue }
    let (acts, hashes, vsum) ← processTxs rest blockTimestamp
    return (Action.txAction txHash ntx :: acts, txHash :: hashes, txValue + vsum)

/-- `process_block` (lines 83-113), field accesses and parses in source
order: `result`, `transactions`, `number`, `timestamp`, the transaction loop,
then `gasLimit`, `gasUsed`, `size`. -/
def process_block (resp : RpcResponse) (actions : List Action) :
    Except PyExc (List Action) := do
  let block ← getKey resp.result "result"
  let transactions ← getKey block.transactions "transactions"
  let block_nb ← getInt0 block.number "number"
  let block_timestamp ← getInt0 block.timestamp "timestamp"
  let (txActions, tx_hashes, tx_value_sum) ← processTxs transactions block_timestamp
  let gasLimit ← getInt0 block.gasLimit "gasLimit"
  let gasUsed ← getInt0 block.gasUsed "gasUsed"
  let size ← getInt0 block.size "size"
  let nb : NormalizedBlock :=
    { number := block_nb, timestamp := block_timestamp, gasLimit := gasLimit,
      gasUsed := gasUsed, size := size, transactionCount := tx_hashes.length,
      txValueSum := tx_value_sum, transactions := tx_hashes }
  return actions ++ txActions ++ [Action.blockAction block_nb nb]

/-! ### The end-to-end normalization scenario of the spec (claim C2) -/

/-- The raw transaction of the spec's end-to-end scenario. -/
def c2RawTx : RawTx :=
  { hash := some "0xaa", blockNumber := some "0x64",
    value := some "0xde0b6b3a7640000" }

/-- The raw block of the spec's end-to-end scenario. -/
def c2RawBlock : RawBlock :=
  { number := some "0x64", timestamp := some "0x5f5e100",
    gasLimit := some "0x7a1200", gasUsed := some "0x3d0900",
    size := some "0x2710", transactions := some [c2RawTx] }

/-- The response wrapping the scenario block. -/
def c2Resp : RpcResponse := ⟨some c2RawBlock⟩

/-- The normalized transaction the code actually produces for the scenario. -/
def c2NTx : NormalizedTx :=
  { hash := "0xaa", blockNumber := 100, blockTimestamp := 100000000, value := 1 }

/-- The normalized block the code actually produces for the scenario:
note `gasLimit = 8000000` (0x7a1200), not the 8000512 of the claim. -/
def c2NBlock : NormalizedBlock :=
  { number := 100, timestamp := 100000000, gasLimit := 8000000,
    gasUsed := 4000000, size := 10000, transactionCount := 1,
    txValueSum := 1, transactions := ["0xaa"] }

/-! ### The bounded concurrent fetcher (lines 54-80)

`fetch` posts one JSON-RPC request and feeds the decoded response to
`process_fn`; its `try` block covers the roundtrip and the processing, and
its `except` clause catches ONLY `aiohttp.ClientError` and
`asyncio.TimeoutError` (line 58), logging `"block: <n>"` to the error log
(line 59) and printing the exception to standard output (line 60).  `run`
(lines 68-80) creates one `sema_fetch` task per block and awaits
`asyncio.gather`; it is modelled as a sequential linearization in task
order — each task's effects apply atomically, and the gathered run fails
exactly when some task raises.  The claims proved below do not depend on the
interleaving order of completions. -/

/-- The observable state threaded through a chunk run: the shared `actions`
list, the `logging.error` file, and standard output. -/
structure IngestState where
  actions : List Action
  errorLog : List String
  printed : List String
deriving DecidableEq

/-- Abstract rendering of Python `str(exception)` as interpolated by the
`print` at line 60; only its presence in the printed line matters. -/
def pyExcMsg : PyExc → String
  | .keyError k => k
  | .valueError => "ValueError"
  | .clientError => "ClientError"
  | .timeoutError => "TimeoutError"

/-- `fetch` (lines 54-61).  `roundtrip` is the outcome of the HTTP POST plus
JSON decode (which is where `ClientError`/`TimeoutError` arise). -/
def fetch (roundtrip : Except PyExc RpcResponse)
    (process_fn : RpcResponse → List Action → Except PyExc (List Action))
    (block : Int) (st : IngestState) : Except PyExc IngestState :=
  match (do let r ← roundtrip; process_fn r st.actions : Except PyExc (List Action)) with
  | .ok acts => .ok { st with actions := acts }
  | .error e =>
    if isNetworkExc e then
      .ok { st with
        errorLog := st.errorLog ++ ["block: " ++ toString block],
        printed := st.printed ++
          ["Issue with block " ++ toString block ++ ":\n" ++ pyExcMsg e ++ "\n"] }
    else .error e

/-- `run` (lines 68-80) as a sequential linearization of the gathered
`sema_fetch` tasks; `roundtrips` gives each block's network outcome. -/
def run (block_range : List Int)
    (roundtrips : Int → Except PyExc RpcResponse)
    (process_fn : RpcResponse → List Action → Except PyExc (List Action))
    (st : IngestState) : Except PyExc IngestState :=
  match block_range with
  | [] => .ok st
  | b :: rest => do
    let st' ← fetch (roundtrips b) process_fn b st
    run rest roundtrips process_fn st'

/-- A raw block whose required key `transactions` is absent (a malformed
payload for claim C5). -/
def c5BadBlock : RawBlock :=
  { number := some "0x64", timestamp := some "0x1", gasLimit := some "0x1",
    gasUsed := some "0x1", size := some "0x1", transactions := none }

/-- A well-formed raw block with no transactions (the healthy sibling for
claim C5). -/
def c5GoodBlock : RawBlock :=
  { number := some "0x65", timestamp := some "0x1", gasLimit := some "0x1",
    gasUsed := some "0x1", size := some "0x1", transactions := some [] }

/-- Network outcomes for claim C5: block 100 returns a malformed payload,
every other block returns the healthy one. -/
def c5Oracle : Int → Except PyExc RpcResponse :=
  fun b => if b = 100 then .ok ⟨some c5BadBlock⟩ else .ok ⟨some c5GoodBlock⟩

/-- The raw transaction for claim C4: its own `blockNumber` field is "0x65"
while its parent block's `number` is "0x64". -/
def c4RawTx : RawTx :=
  { hash := some "0xbb", blockNumber := some "0x65", value := some "0x0" }

/-- The raw block for claim C4. -/
def c4RawBlock : RawBlock :=
  { number := some "0x64", timestamp := some "0x1", gasLimit := some "0x1",
    gasUsed := some "0x1", size := some "0x1", transactions := some [c4RawTx] }

/-- The response wrapping the claim C4 block. -/
def c4Resp : RpcResponse := ⟨some c4RawBlock⟩

/-- The normalized transaction the code produces for claim C4: its
`blockNumber` is 101, parsed from the transaction's own field. -/
def c4NTx : NormalizedTx :=
  { hash := "0xbb", blockNumber := 101, blockTimestamp := 1, value := 0 }

/-- The normalized block the code produces for claim C4: its `number` is 100. -/
def c4NBlock : NormalizedBlock :=
  { number := 100, timestamp := 1, gasLimit := 1, gasUsed := 1, size := 1,
    transactionCount := 1, txValueSum := 0, transactions := ["0xbb"] }

/-! ### The chunk bulk committer (lines 116-137)

`setup_process` runs the chunk, splits the accumulated actions into block
and transaction actions, and — when there is at least one — performs one
`helpers.bulk` call.  The bulk primitive is an external collaborator; its
outcome is a parameter: success, or the `BulkIndexError` by which it reports
partial or total document failure (the spec requires the store interface to
report failures this way rather than raising uncatchably).  On success the
committer prints a summary line computed with `max(...)` over the block ids
(Python `max` of an empty list raises `ValueError` — kept faithfully,
though unreachable from the pipeline because every successfully processed
block appends its block action); on `BulkIndexError` it prints the issue
and logs every block id of the chunk (lines 134-137). -/

/-- `helpers.BulkIndexError`, carrying the ids of the failed block
documents for the purpose of stating which identifiers get logged. -/
inductive BulkExc where
  | bulkIndexError (failedBlockIds : List Int)
deriving DecidableEq

/-- What the committer observably did: whether `helpers.bulk` was invoked,
which block ids went to the error log, and the printed summary
(highest block id, block count, transaction count) if any. -/
structure CommitResult where
  bulkCalled : Bool
  loggedBlockIds : List Int
  summary : Option (Int × Nat × Nat)
deriving DecidableEq

/-- Discriminates `act["_type"] == "b"` (line 125). -/
def isBlockAction : Action → Bool
  | .blockAction _ _ => true
  | _ => false

/-- Discriminates `act["_type"] == "tx"` (line 126). -/
def isTxAction : Action → Bool
  | .txAction _ _ => true
  | _ => false

/-- The `_id`s of the block actions, in list order. -/
def blockActionIds (l : List Action) : List Int :=
  l.filterMap fun a =>
    match a with
    | .blockAction i _ => some i
    | _ => none

/-- Python `max` on a list of ints: `ValueError` when empty. -/
def pyMax (l : List Int) : Except PyExc Int :=
  match l with
  | [] => .error .valueError
  | x :: xs => .ok (xs.foldl max x)

/-- The commit phase of `setup_process` (lines 125-137). -/
def commit (out_actions : List Action) (bulkOutcome : Except BulkExc Unit) :
    Except PyExc CommitResult :=
  let blocks := out_actions.filter isBlockAction
  let txs := out_actions.filter isTxAction
  if blocks ≠ [] ∨ txs ≠ [] then
    match bulkOutcome with
    | .ok _ =>
      match pyMax (blockActionIds blocks) with
      | .ok m => .ok { bulkCalled := true, loggedBlockIds := [],
                       summary := some (m, blocks.length, txs.length) }
      | .error e => .error e
    | .error _ =>
      .ok { bulkCalled := true, loggedBlockIds := blockActionIds blocks,
            summary := none }
  else
    .ok { bulkCalled := false, loggedBlockIds := [], summary := none }

/-! ### The admission gate (lines 27, 63-65, 70, 77-80)

`run` creates one `asyncio.Semaphore(SEM_SIZE)` per chunk; every
`sema_fetch` task executes `async with sem: await fetch(...)`, i.e. it
acquires one slot before issuing its request and releases it when the
`async with` block exits — on normal completion and on exception alike.
The cooperative scheduler is modelled as a transition system over the
population counts of the chunk's tasks; `fetch` itself never suspends
between acquire and release except inside the guarded body. -/

/-- Counts of the chunk's fetch tasks: free semaphore slots, tasks not yet
admitted, tasks holding a slot (in-flight requests), finished tasks. -/
structure SemState where
  avail : Nat
  waiting : Nat
  inflight : Nat
  finished : Nat
deriving DecidableEq

/-- `SEM_SIZE = 256` (line 27). -/
def SEM_SIZE : Nat := 256

/-- `CHUNK_SIZE = 250` (line 29). -/
def CHUNK_SIZE : Nat := 250

/-- One scheduler step: a waiting task may acquire a free slot before
issuing its request (`async with sem` entry), and an in-flight task may
finish — successfully or with a caught failure — releasing its slot
(`async with sem` exit). -/
inductive SemStep (S : Nat) : SemState → SemState → Prop where
  | acquire (s : SemState) (hw : 0 < s.waiting) (ha : 0 < s.avail) :
      SemStep S s ⟨s.avail - 1, s.waiting - 1, s.inflight + 1, s.finished⟩
  | release (s : SemState) (hi : 0 < s.inflight) (success : Bool) :
      SemStep S s ⟨s.avail + 1, s.waiting, s.inflight - 1, s.finished + 1⟩

/-- The start of a chunk run: `asyncio.Semaphore(S)` full, all `n` fetch
tasks waiting, none in flight (lines 69-70). -/
def semInit (S n : Nat) : SemState := ⟨S, n, 0, 0⟩

/-! ### The input-file path (lines 165-168)

    CONTENT = f.readlines()
    block_list = [int(x) for x in CONTENT if x.strip() and len(x.strip()) <= 8]
-/

/-- The comprehension filter: stripped line non-empty and at most 8
characters. -/
def lineKeep (x : String) : Bool :=
  decide (pyStrip x.data ≠ []) && decide ((pyStrip x.data).length ≤ 8)

/-- The comprehension itself: `int(x)` on every line passing the filter, in
file order; the first non-numeric filtered line raises `ValueError`. -/
def parseBlockLines (content : List String) : Except PyExc (List Int) :=
  match content with
  | [] => .ok []
  | x :: rest =>
    if lineKeep x then do
      let n ← pyIntBase10 x
      let ns ← parseBlockLines rest
      return (n :: ns)
    else parseBlockLines rest

/-- The index action built from a normalized transaction at line 100
(`_id` is the transaction hash). -/
def mkTxAction (t : NormalizedTx) : Action := Action.txAction t.hash t

/-- How one normalized transaction relates to the raw transaction it came
from, given the parent block timestamp `ts`: the hash is copied, the
`blockNumber` is parsed from the TRANSACTION's own field, the timestamp is
stamped from the parent, and the value is the parsed wei amount divided by
10^18. -/
def TxSpec (ts : Int) (raw : RawTx) (t : NormalizedTx) : Prop :=
  raw.hash = some t.hash ∧
  (∃ s, raw.blockNumber = some s ∧ pyIntBase0 s = Except.ok t.blockNumber) ∧
  t.blockTimestamp = ts ∧
  (∃ s v, raw.value = some s ∧ pyIntBase0 s = Except.ok v ∧
    t.value = (v : ℚ) / WEI_ETH_FACTOR)

theorem chunkCore_nil (c : Nat) : chunkCore ([] : List α) c = [] := by
  simp [chunkCore]

theorem chunkCore_cons (x : α) (xs : List α) (c : Nat) :
    chunkCore (x :: xs) c =
      (x :: xs).take (c + 1) :: chunkCore ((x :: xs).drop (c + 1)) c := by
  rw [chunkCore]

theorem chunkCore_eq_nil_iff (l : List α) (c : Nat) :
    chunkCore l c = [] ↔ l = [] := by
  cases l with
  | nil => simp [chunkCore_nil]
  | cons x xs => simp [chunkCore_cons]

/-- The index arithmetic of the `range`-over-slices form agrees with the
recursive chunking. -/
theorem range_chunk_eq_aux (c : Nat) :
    ∀ (n : Nat) (lst : List α), lst.length ≤ n →
      (List.range ((lst.length + c) / (c + 1))).map
          (fun k => (lst.drop (k * (c + 1))).take (c + 1)) =
        chunkCore lst c := by
  intro n
  induction n with
  | zero =>
    intro lst h
    have : lst = [] := List.length_eq_zero.mp (Nat.le_zero.mp h)
    subst this
    simp [chunkCore_nil, Nat.div_eq_of_lt (Nat.lt_succ_of_le (Nat.le_refl c))]
  | succ n ih =>
    intro lst h
    cases lst with
    | nil =>
      simp [chunkCore_nil, Nat.div_eq_of_lt (Nat.lt_succ_of_le (Nat.le_refl c))]
    | cons x xs =>
      have hm : (xs.length + 1 + c) / (c + 1) = xs.length / (c + 1) + 1 := by
        have : xs.length + 1 + c = xs.length + (c + 1) := by omega
        rw [this, Nat.add_div_right _ (Nat.succ_pos c)]
      have hlen : ((x :: xs).drop (c + 1)).length = xs.length - c := by
        simp [List.length_drop]
      have hdivs : (((x :: xs).drop (c + 1)).length + c) / (c + 1) =
          xs.length / (c + 1) := by
        rw [hlen]
        rcases Nat.le_total c xs.length with hc | hc
        · have : xs.length - c + c = xs.length := Nat.sub_add_cancel hc
          rw [this]
        · have h1 : xs.length - c = 0 := Nat.sub_eq_zero_of_le hc
          rw [h1]
          have h2 : c / (c + 1) = 0 := Nat.div_eq_of_lt (Nat.lt_succ_self c)
          have h3 : xs.length / (c + 1) = 0 :=
            Nat.div_eq_of_lt (Nat.lt_succ_of_le hc)
          simp [h2, h3]
      have hxs : xs.length + 1 ≤ n + 1 := by simpa using h
      have ihd := ih ((x :: xs).drop (c + 1)) (by rw [hlen]; omega)
      rw [List.length_cons, hm, List.range_succ_eq_map, List.map_cons]
      rw [hdivs] at ihd
      rw [chunkCore_cons]
      congr 1
      · simp
      · rw [← ihd, List.map_map]
        apply List.map_congr_left
        intro k _
        simp only [Function.comp_apply]
        rw [List.drop_drop]
        congr 2
        simp [Nat.succ_eq_add_one]
        ring

/-- Chunking with a positive size computes the recursive chunking. -/
theorem chunks_pos (lst : List α) (c : Nat) :
    chunks lst ((c : Int) + 1) = Except.ok (chunkCore lst c) := by
  have hstep : ((c : Int) + 1).toNat = c + 1 := by omega
  have h0 : ¬ ((c : Int) + 1 = 0) := by omega
  have h1 : ¬ ((c : Int) + 1 < 0) := by omega
  unfold chunks pyRange
  rw [if_neg h0, if_neg h1]
  simp only [Except.map, hstep]
  congr 1
  have harg : lst.length + (c + 1) - 1 = lst.length + c := by omega
  rw [harg, List.map_map]
  have := range_chunk_eq_aux (α := α) c lst.length lst (Nat.le_refl _)
  rw [← this]
  apply List.map_congr_left
  intro k _
  simp [pySlice]

theorem chunkCore_flatten (c : Nat) :
    ∀ (n : Nat) (l : List α), l.length ≤ n → (chunkCore l c).flatten = l := by
  intro n
  induction n with
  | zero =>
    intro l h
    have : l = [] := List.length_eq_zero.mp (Nat.le_zero.mp h)
    subst this
    simp [chunkCore_nil]
  | succ n ih =>
    intro l h
    cases l with
    | nil => simp [chunkCore_nil]
    | cons x xs =>
      rw [chunkCore_cons, List.flatten_cons]
      rw [ih ((x :: xs).drop (c + 1)) (by simp [List.length_drop] at h ⊢; omega)]
      exact List.take_append_drop _ _

theorem chunkCore_length (c : Nat) :
    ∀ (n : Nat) (l : List α), l.length ≤ n →
      (chunkCore l c).length = (l.length + c) / (c + 1) := by
  intro n
  induction n with
  | zero =>
    intro l h
    have : l = [] := List.length_eq_zero.mp (Nat.le_zero.mp h)
    subst this
    simp [chunkCore_nil, Nat.div_eq_of_lt (Nat.lt_succ_of_le (Nat.le_refl c))]
  | succ n ih =>
    intro l h
    cases l with
    | nil => simp [chunkCore_nil, Nat.div_eq_of_lt (Nat.lt_succ_of_le (Nat.le_refl c))]
    | cons x xs =>
      rw [chunkCore_cons, List.length_cons]
      rw [ih ((x :: xs).drop (c + 1)) (by simp [List.length_drop] at h ⊢; omega)]
      simp only [List.length_drop, List.length_cons]
      rcases Nat.le_total c xs.length with hc | hc
      · have h1 : xs.length + 1 - (c + 1) = xs.length - c := by omega
        have h2 : xs.length - c + c = xs.length := Nat.sub_add_cancel hc
        have h3 : xs.length + 1 + c = xs.length + (c + 1) := by omega
        rw [h1, h2, h3, Nat.add_div_right _ (Nat.succ_pos c)]
      · have h1 : xs.length + 1 - (c + 1) = xs.length - c := by omega
        have h2 : xs.length - c = 0 := Nat.sub_eq_zero_of_le hc
        have h4 : c + 1 ≤ xs.length + 1 + c := by omega
        rw [h1, h2]
        have h5 : c / (c + 1) = 0 := Nat.div_eq_of_lt (Nat.lt_succ_self c)
        have h6 : (xs.length + 1 + c) / (c + 1) = 1 := by
          rw [Nat.div_eq_sub_div (Nat.succ_pos c) h4]
          have : xs.length + 1 + c - (c + 1) = xs.length := by omega
          rw [this, Nat.div_eq_of_lt (by omega)]
        simp [h5, h6]

theorem chunkCore_dropLast (c : Nat) :
    ∀ (n : Nat) (l : List α), l.length ≤ n →
      ∀ ch ∈ (chunkCore l c).dropLast, ch.length = c + 1 := by
  intro n
  induction n with
  | zero =>
    intro l h
    have : l = [] := List.length_eq_zero.mp (Nat.le_zero.mp h)
    subst this
    simp [chunkCore_nil]
  | succ n ih =>
    intro l h
    cases l with
    | nil => simp [chunkCore_nil]
    | cons x xs =>
      rw [chunkCore_cons]
      intro ch hch
      rcases hrest : chunkCore ((x :: xs).drop (c + 1)) c with _ | ⟨r, rs⟩
      · rw [hrest] at hch
        simp at hch
      · rw [hrest] at hch
        rw [List.dropLast_cons_of_ne_nil (by simp)] at hch
        rcases List.mem_cons.mp hch with hch | hch
        · subst hch
          have hne : (x :: xs).drop (c + 1) ≠ [] := by
            intro hnil
            rw [hnil, chunkCore_nil] at hrest
            exact List.cons_ne_nil _ _ hrest.symm
          have hlong : c + 1 ≤ (x :: xs).length := by
            rcases Nat.le_total (c + 1) ((x :: xs).length) with h' | h'
            · exact h'
            · exact absurd (List.drop_eq_nil_of_le h') hne
          simp only [List.length_take, List.length_cons]
          simp only [List.length_cons] at hlong
          omega
        · have := ih ((x :: xs).drop (c + 1))
            (by simp [List.length_drop] at h ⊢; omega) ch
          rw [hrest] at this
          exact this hch

theorem chunkCore_getLast? (c : Nat) :
    ∀ (n : Nat) (l : List α), l.length ≤ n →
      ∀ last ∈ (chunkCore l c).getLast?,
        last.length = if l.length % (c + 1) = 0 ∧ l.length ≠ 0 then c + 1
                      else l.length % (c + 1) := by
  intro n
  induction n with
  | zero =>
    intro l hl last hlast
    have : l = [] := List.length_eq_zero.mp (Nat.le_zero.mp hl)
    subst this
    rw [chunkCore_nil] at hlast
    simp at hlast
  | succ n ih =>
    intro l hl last hlast
    cases l with
    | nil =>
      rw [chunkCore_nil] at hlast
      simp at hlast
    | cons x xs =>
      rw [chunkCore_cons] at hlast
      rcases hrest : chunkCore ((x :: xs).drop (c + 1)) c with _ | ⟨r, rs⟩
      · have hnil : (x :: xs).drop (c + 1) = [] :=
          (chunkCore_eq_nil_iff _ c).mp hrest
        have hshort : (x :: xs).length ≤ c + 1 := by
          have h0 := congrArg List.length hnil
          simp only [List.length_drop, List.length_nil, List.length_cons] at h0 ⊢
          omega
        rw [hrest] at hlast
        simp only [List.getLast?_singleton, Option.mem_def, Option.some_inj] at hlast
        subst hlast
        have hlen : ((x :: xs).take (c + 1)).length = (x :: xs).length := by
          simp only [List.length_take, List.length_cons]
          simp only [List.length_cons] at hshort
          omega
        rw [hlen]
        rcases Nat.lt_or_ge ((x :: xs).length) (c + 1) with hlt | hge
        · have hmod : (x :: xs).length % (c + 1) = (x :: xs).length :=
            Nat.mod_eq_of_lt hlt
          have hne0 : ¬ ((x :: xs).length % (c + 1) = 0 ∧ (x :: xs).length ≠ 0) := by
            rw [hmod]
            simp
          rw [if_neg hne0, hmod]
        · have heq : (x :: xs).length = c + 1 := by omega
          rw [heq]
          simp
      · rw [hrest] at hlast
        rw [List.getLast?_cons_cons] at hlast
        rw [← hrest] at hlast
        have hne : (x :: xs).drop (c + 1) ≠ [] := by
          intro hnil
          rw [hnil, chunkCore_nil] at hrest
          exact List.cons_ne_nil _ _ hrest.symm
        have hlong : c + 1 < (x :: xs).length := by
          rcases Nat.lt_or_ge (c + 1) ((x :: xs).length) with h' | h'
          · exact h'
          · exact absurd (List.drop_eq_nil_of_le h') hne
        have hlene : ((x :: xs).drop (c + 1)).length = (x :: xs).length - (c + 1) := by
          simp [List.length_drop]
        have := ih ((x :: xs).drop (c + 1))
          (by simp [List.length_drop] at hl ⊢; omega) last hlast
        rw [this]
        have hmod : ((x :: xs).length - (c + 1)) % (c + 1) = (x :: xs).length % (c + 1) := by
          conv_rhs => rw [show (x :: xs).length = ((x :: xs).length - (c + 1)) + (c + 1) by omega]
          rw [Nat.add_mod_right]
        rw [hlene, hmod]
        have hpos : 0 < (x :: xs).length - (c + 1) := by omega
        have hiff : ((x :: xs).length % (c + 1) = 0 ∧ (x :: xs).length - (c + 1) ≠ 0) ↔
            ((x :: xs).length % (c + 1) = 0 ∧ (x :: xs).length ≠ 0) := by
          constructor
          · intro h
            exact ⟨h.1, by omega⟩
          · intro h
            exact ⟨h.1, by omega⟩
        rw [if_congr hiff rfl rfl]

/-- C1: for every list of block numbers and every chunk size C > 0, `chunks`
succeeds and produces exactly ⌈N/C⌉ chunks whose in-order concatenation is the
original list; every chunk except possibly the last has length exactly C, and
the last chunk has length N mod C, or C when C divides a non-zero N. -/
theorem C1_chunks_partition (lst : List Int) (C : Int) (hC : 0 < C) :
    ∃ cs : List (List Int), chunks lst C = Except.ok cs ∧
      cs.flatten = lst ∧
      cs.length = (lst.length + C.toNat - 1) / C.toNat ∧
      (∀ ch ∈ cs.dropLast, ch.length = C.toNat) ∧
      (∀ last ∈ cs.getLast?, last.length =
        if lst.length % C.toNat = 0 ∧ lst.length ≠ 0 then C.toNat
        else lst.length % C.toNat) := by
  obtain ⟨c, hc⟩ : ∃ c : Nat, C = (c : Int) + 1 := ⟨C.toNat - 1, by omega⟩
  subst hc
  have ht : ((c : Int) + 1).toNat = c + 1 := by omega
  refine ⟨chunkCore lst c, chunks_pos lst c, ?_, ?_, ?_, ?_⟩
  · exact chunkCore_flatten c lst.length lst (Nat.le_refl _)
  · rw [chunkCore_length c lst.length lst (Nat.le_refl _), ht]
    congr 1
  · rw [ht]
    exact chunkCore_dropLast c lst.length lst (Nat.le_refl _)
  · intro last hlast
    rw [ht]
    exact chunkCore_getLast? c lst.length lst (Nat.le_refl _) last hlast

theorem C1_chunks_partition_witness :
    (0 : Int) < 2 ∧
      ∃ cs : List (List Int), chunks [1, 2, 3, 4, 5] 2 = Except.ok cs ∧
        cs.flatten = [1, 2, 3, 4, 5] ∧
        cs.length = (([1, 2, 3, 4, 5] : List Int).length + (2 : Int).toNat - 1) / (2 : Int).toNat ∧
        (∀ ch ∈ cs.dropLast, ch.length = (2 : Int).toNat) ∧
        (∀ last ∈ cs.getLast?, last.length =
          if ([1, 2, 3, 4, 5] : List Int).length % (2 : Int).toNat = 0 ∧
              ([1, 2, 3, 4, 5] : List Int).length ≠ 0 then (2 : Int).toNat
          else ([1, 2, 3, 4, 5] : List Int).length % (2 : Int).toNat) :=
  ⟨by decide, C1_chunks_partition [1, 2, 3, 4, 5] 2 (by decide)⟩

/-- C8 counterexample: with the negative chunk size -1 the partitioner does not
fail at all — `range(0, len(lst), -1)` is simply empty, so `chunks` silently
yields zero chunks instead of signalling invalid input. -/
theorem C8_counterexample : chunks ([1, 2, 3] : List Int) (-1) = Except.ok [] := by
  rfl

/-- C8 (amended): a chunk size of exactly 0 raises `ValueError` as soon as the
chunk generator is materialized, before any chunk is produced or any fetch is
attempted; a negative chunk size is NOT rejected — it silently produces zero
chunks (so no fetch is attempted, but no failure is signalled either). -/
theorem C8_nonpositive_chunk_size (lst : List Int) (C : Int) (hC : C ≤ 0) :
    (C = 0 → chunks lst C = Except.error PyExc.valueError) ∧
    (C < 0 → chunks lst C = Except.ok []) := by
  constructor
  · intro h0
    subst h0
    simp [chunks, pyRange, Except.map]
  · intro hneg
    have h0 : ¬ ((C : Int) = 0) := by omega
    simp [chunks, pyRange, h0, hneg, Except.map]

theorem C8_nonpositive_chunk_size_witness :
    (-1 : Int) ≤ 0 ∧
      (((-1 : Int) = 0 → chunks ([1, 2, 3] : List Int) (-1) = Except.error PyExc.valueError) ∧
       ((-1 : Int) < 0 → chunks ([1, 2, 3] : List Int) (-1) = Except.ok [])) :=
  ⟨by decide, C8_nonpositive_chunk_size [1, 2, 3] (-1) (by decide)⟩

/-- Monad bind on a successful `Except` computation. -/
theorem except_bind_ok (v : α) (f : α → Except PyExc β) :
    (Except.ok v >>= f) = f v := rfl

/-- Monad bind on a failed `Except` computation. -/
theorem except_bind_err (e : PyExc) (f : α → Except PyExc β) :
    ((Except.error e : Except PyExc α) >>= f) = Except.error e := rfl

/-- Monad pure for `Except`. -/
theorem except_pure (v : α) : (pure v : Except PyExc α) = Except.ok v := rfl

theorem parse_0x64 : pyIntBase0 "0x64" = Except.ok 100 := by decide

theorem parse_ts : pyIntBase0 "0x5f5e100" = Except.ok 100000000 := by decide

theorem parse_gl : pyIntBase0 "0x7a1200" = Except.ok 8000000 := by decide

theorem parse_gu : pyIntBase0 "0x3d0900" = Except.ok 4000000 := by decide

theorem parse_sz : pyIntBase0 "0x2710" = Except.ok 10000 := by decide

theorem parse_wei : pyIntBase0 "0xde0b6b3a7640000" = Except.ok 1000000000000000000 := by
  decide

/-- 10^18 wei is exactly one ether. -/
theorem wei_one : ((1000000000000000000 : Int) : ℚ) / WEI_ETH_FACTOR = 1 := by
  norm_num [WEI_ETH_FACTOR]

/-- Evaluation of the normalizer on the spec scenario block. -/
theorem c2_eval : process_block c2Resp [] =
    Except.ok [Action.txAction "0xaa" c2NTx, Action.blockAction 100 c2NBlock] := by
  simp only [process_block, processTxs, c2Resp, c2RawBlock, c2RawTx, getKey, getInt0,
    except_bind_ok, parse_0x64, parse_ts, parse_gl, parse_gu, parse_sz, parse_wei,
    except_pure, wei_one, add_zero]
  simp [c2NTx, c2NBlock, wei_one]

/-- C2 counterexample: on the spec scenario RawBlock the normalizer yields
`gasLimit = 8000000` (0x7a1200 = 8000000), not the 8000512 stated by the
claim; every other field is as claimed. -/
theorem C2_counterexample :
    process_block c2Resp [] =
      Except.ok [Action.txAction "0xaa" c2NTx, Action.blockAction 100 c2NBlock] ∧
    c2NBlock.gasLimit ≠ 8000512 := by
  refine ⟨c2_eval, ?_⟩
  decide

/-- C2 (amended): normalizing the spec scenario RawBlock yields exactly one
NormalizedTransaction (hash "0xaa", blockNumber 100, value 1 ether) and a
NormalizedBlock with number 100, gasLimit 8000000, gasUsed 4000000,
size 10000, transactionCount 1, txValueSum 1 and transaction list ["0xaa"]. -/
theorem C2_scenario :
    process_block c2Resp [] =
      Except.ok [Action.txAction "0xaa" c2NTx, Action.blockAction 100 c2NBlock] :=
  c2_eval

/-- Inversion of a successful `Except` bind. -/
theorem except_bind_ok_iff {x : Except PyExc α} {f : α → Except PyExc β} {b : β} :
    (x >>= f) = Except.ok b ↔ ∃ a, x = Except.ok a ∧ f a = Except.ok b := by
  cases x with
  | ok v => simp [except_bind_ok]
  | error e => simp [except_bind_err]

/-- Inversion of a successful dict subscript. -/
theorem getKey_ok_iff {o : Option α} {k : String} {a : α} :
    getKey o k = Except.ok a ↔ o = some a := by
  cases o <;> simp [getKey]

/-- Inversion of a successful `int(d[k], 0)`. -/
theorem getInt0_ok_iff {f : Option String} {k : String} {n : Int} :
    getInt0 f k = Except.ok n ↔
      ∃ s, f = some s ∧ pyIntBase0 s = Except.ok n := by
  cases f with
  | none => simp [getInt0, getKey, except_bind_err]
  | some s => simp [getInt0, getKey, except_bind_ok]

/-- Characterization of a successful transaction loop: the produced actions,
hash list and value sum all come from one list of normalized transactions,
each related to its raw transaction by `TxSpec`. -/
theorem processTxs_spec (ts : Int) :
    ∀ (txs : List RawTx) (acts : List Action) (hs : List String) (vsum : ℚ),
      processTxs txs ts = Except.ok (acts, hs, vsum) →
      ∃ ntxs : List NormalizedTx,
        acts = ntxs.map mkTxAction ∧
        hs = ntxs.map (fun t => t.hash) ∧
        vsum = (ntxs.map (fun t => t.value)).sum ∧
        List.Forall₂ (TxSpec ts) txs ntxs := by
  intro txs
  induction txs with
  | nil =>
    intro acts hs vsum h
    simp only [processTxs, Except.ok.injEq, Prod.mk.injEq] at h
    obtain ⟨h1, h2, h3⟩ := h
    subst h1
    subst h2
    subst h3
    exact ⟨[], by simp, by simp, by simp, List.Forall₂.nil⟩
  | cons tx rest ih =>
    intro acts hs vsum h
    rw [processTxs] at h
    obtain ⟨bn, hbn, h⟩ := except_bind_ok_iff.mp h
    obtain ⟨vw, hvw, h⟩ := except_bind_ok_iff.mp h
    obtain ⟨hsh, hhsh, h⟩ := except_bind_ok_iff.mp h
    obtain ⟨p, hp, h⟩ := except_bind_ok_iff.mp h
    obtain ⟨pacts, phashes, pvsum⟩ := p
    simp only [except_pure, Except.ok.injEq, Prod.mk.injEq] at h
    obtain ⟨h1, h2, h3⟩ := h
    obtain ⟨ntxs, ha, hh, hv, hf⟩ := ih pacts phashes pvsum hp
    refine ⟨{ hash := hsh, blockNumber := bn, blockTimestamp := ts,
              value := (vw : ℚ) / WEI_ETH_FACTOR } :: ntxs, ?_, ?_, ?_, ?_⟩
    · rw [← h1]
      simp [mkTxAction, ha]
    · rw [← h2]
      simp [hh]
    · rw [← h3]
      simp [hv]
    · refine List.Forall₂.cons ?_ hf
      refine ⟨getKey_ok_iff.mp hhsh, ?_, rfl, ?_⟩
      · obtain ⟨s, hss, hps⟩ := getInt0_ok_iff.mp hbn
        exact ⟨s, hss, hps⟩
      · obtain ⟨s, hss, hps⟩ := getInt0_ok_iff.mp hvw
        exact ⟨s, vw, hss, hps, rfl⟩

/-- C3: whenever the normalizer succeeds on a raw block, the produced
NormalizedBlock counts exactly the transaction hashes it stores
(`transactionCount = length transactions`), its hash list is the hashes of
the NormalizedTransactions produced for that block, and its `txValueSum` is
exactly the sum of those transactions' converted values. -/
theorem C3_aggregate_invariant (resp : RpcResponse) (actions acts' : List Action)
    (h : process_block resp actions = Except.ok acts') :
    ∃ (ntxs : List NormalizedTx) (nb : NormalizedBlock),
      acts' = actions ++ ntxs.map mkTxAction ++ [Action.blockAction nb.number nb] ∧
      nb.transactionCount = nb.transactions.length ∧
      nb.transactions = ntxs.map (fun t => t.hash) ∧
      nb.txValueSum = (ntxs.map (fun t => t.value)).sum := by
  rw [process_block] at h
  obtain ⟨block, hblock, h⟩ := except_bind_ok_iff.mp h
  obtain ⟨txsRaw, htxsRaw, h⟩ := except_bind_ok_iff.mp h
  obtain ⟨bn, hbn, h⟩ := except_bind_ok_iff.mp h
  obtain ⟨bts, hbts, h⟩ := except_bind_ok_iff.mp h
  obtain ⟨p, hp, h⟩ := except_bind_ok_iff.mp h
  obtain ⟨tacts, thashes, tvsum⟩ := p
  obtain ⟨gl, hgl, h⟩ := except_bind_ok_iff.mp h
  obtain ⟨gu, hgu, h⟩ := except_bind_ok_iff.mp h
  obtain ⟨sz, hsz, h⟩ := except_bind_ok_iff.mp h
  simp only [except_pure, Except.ok.injEq] at h
  obtain ⟨ntxs, ha, hh, hv, hf⟩ := processTxs_spec bts txsRaw tacts thashes tvsum hp
  refine ⟨ntxs,
    { number := bn, timestamp := bts, gasLimit := gl, gasUsed := gu, size := sz,
      transactionCount := thashes.length, txValueSum := tvsum,
      transactions := thashes }, ?_, rfl, hh, hv⟩
  rw [← h, ha]

theorem C3_aggregate_invariant_witness :
    process_block c2Resp [] =
      Except.ok [Action.txAction "0xaa" c2NTx, Action.blockAction 100 c2NBlock] ∧
    ∃ (ntxs : List NormalizedTx) (nb : NormalizedBlock),
      [Action.txAction "0xaa" c2NTx, Action.blockAction 100 c2NBlock] =
        [] ++ ntxs.map mkTxAction ++ [Action.blockAction nb.number nb] ∧
      nb.transactionCount = nb.transactions.length ∧
      nb.transactions = ntxs.map (fun t => t.hash) ∧
      nb.txValueSum = (ntxs.map (fun t => t.value)).sum :=
  ⟨c2_eval, C3_aggregate_invariant c2Resp [] _ c2_eval⟩

theorem parse_0x65 : pyIntBase0 "0x65" = Except.ok 101 := by decide

theorem parse_0x1 : pyIntBase0 "0x1" = Except.ok 1 := by decide

theorem parse_0x0 : pyIntBase0 "0x0" = Except.ok 0 := by decide

/-- Zero wei is zero ether. -/
theorem wei_zero : ((0 : Int) : ℚ) / WEI_ETH_FACTOR = 0 := by
  norm_num

/-- Evaluation of the normalizer on the claim C4 block: the transaction is
stamped with blockNumber 101 — parsed from its OWN `blockNumber` field —
while the parent block's number is 100. -/
theorem c4_eval : process_block c4Resp [] =
    Except.ok [Action.txAction "0xbb" c4NTx, Action.blockAction 100 c4NBlock] := by
  simp only [process_block, processTxs, c4Resp, c4RawBlock, c4RawTx, getKey, getInt0,
    except_bind_ok, parse_0x64, parse_0x65, parse_0x1, parse_0x0,
    except_pure, wei_zero, add_zero]
  simp [c4NTx, c4NBlock, wei_zero]

/-- C4 counterexample: for a raw transaction whose own `blockNumber` field
("0x65") disagrees with the parent block's `number` ("0x64"), the code
produces a NormalizedTransaction with blockNumber 101 ≠ 100: the
transaction is NOT stamped with the parent block's number. -/
theorem C4_counterexample :
    process_block c4Resp [] =
      Except.ok [Action.txAction "0xbb" c4NTx, Action.blockAction 100 c4NBlock] ∧
    c4NTx.blockNumber ≠ c4NBlock.number := by
  refine ⟨c4_eval, ?_⟩
  decide

/-- C4 (amended): whenever the normalizer succeeds, every produced
NormalizedTransaction is stamped with the parent block's timestamp, its
value is the raw wei value divided by 10^18, and its blockNumber is parsed
from the transaction's OWN `blockNumber` wire field (not copied from the
parent block). -/
theorem C4_transaction_stamping (resp : RpcResponse) (actions acts' : List Action)
    (h : process_block resp actions = Except.ok acts') :
    ∃ (blk : RawBlock) (rawTxs : List RawTx) (ts : Int)
      (ntxs : List NormalizedTx) (nb : NormalizedBlock),
      resp.result = some blk ∧
      blk.transactions = some rawTxs ∧
      (∃ s, blk.timestamp = some s ∧ pyIntBase0 s = Except.ok ts) ∧
      nb.timestamp = ts ∧
      acts' = actions ++ ntxs.map mkTxAction ++ [Action.blockAction nb.number nb] ∧
      List.Forall₂ (TxSpec ts) rawTxs ntxs := by
  rw [process_block] at h
  obtain ⟨block, hblock, h⟩ := except_bind_ok_iff.mp h
  obtain ⟨txsRaw, htxsRaw, h⟩ := except_bind_ok_iff.mp h
  obtain ⟨bn, hbn, h⟩ := except_bind_ok_iff.mp h
  obtain ⟨bts, hbts, h⟩ := except_bind_ok_iff.mp h
  obtain ⟨p, hp, h⟩ := except_bind_ok_iff.mp h
  obtain ⟨tacts, thashes, tvsum⟩ := p
  obtain ⟨gl, hgl, h⟩ := except_bind_ok_iff.mp h
  obtain ⟨gu, hgu, h⟩ := except_bind_ok_iff.mp h
  obtain ⟨sz, hsz, h⟩ := except_bind_ok_iff.mp h
  simp only [except_pure, Except.ok.injEq] at h
  obtain ⟨ntxs, ha, hh, hv, hf⟩ := processTxs_spec bts txsRaw tacts thashes tvsum hp
  refine ⟨block, txsRaw, bts, ntxs,
    { number := bn, timestamp := bts, gasLimit := gl, gasUsed := gu, size := sz,
      transactionCount := thashes.length, txValueSum := tvsum,
      transactions := thashes },
    getKey_ok_iff.mp hblock, getKey_ok_iff.mp htxsRaw,
    getInt0_ok_iff.mp hbts, rfl, ?_, hf⟩
  rw [← h, ha]

theorem C4_transaction_stamping_witness :
    process_block c4Resp [] =
      Except.ok [Action.txAction "0xbb" c4NTx, Action.blockAction 100 c4NBlock] ∧
    ∃ (blk : RawBlock) (rawTxs : List RawTx) (ts : Int)
      (ntxs : List NormalizedTx) (nb : NormalizedBlock),
      c4Resp.result = some blk ∧
      blk.transactions = some rawTxs ∧
      (∃ s, blk.timestamp = some s ∧ pyIntBase0 s = Except.ok ts) ∧
      nb.timestamp = ts ∧
      [Action.txAction "0xbb" c4NTx, Action.blockAction 100 c4NBlock] =
        [] ++ ntxs.map mkTxAction ++ [Action.blockAction nb.number nb] ∧
      List.Forall₂ (TxSpec ts) rawTxs ntxs :=
  ⟨c4_eval, C4_transaction_stamping c4Resp [] _ c4_eval⟩

/-- Inversion of a failed `Except` bind. -/
theorem except_bind_err_iff {x : Except PyExc α} {f : α → Except PyExc β} {e : PyExc} :
    (x >>= f) = Except.error e ↔
      x = Except.error e ∨ ∃ a, x = Except.ok a ∧ f a = Except.error e := by
  cases x <;> simp [except_bind_ok, except_bind_err]

/-- A failed digit parse is always a `ValueError`. -/
theorem parseDigits_err {d : Char → Option Nat} {b : Nat} {cs : List Char}
    {e : PyExc} (h : parseDigits d b cs = Except.error e) :
    e = PyExc.valueError := by
  unfold parseDigits at h
  split at h
  · injection h with h
    exact h.symm
  · split at h
    · simp at h
    · injection h with h
      exact h.symm

/-- A failed `int(s, 0)` numeral is always a `ValueError`. -/
theorem pyIntUnsigned0_err {cs : List Char} {e : PyExc}
    (h : pyIntUnsigned0 cs = Except.error e) : e = PyExc.valueError := by
  unfold pyIntUnsigned0 at h
  split at h
  · split at h
    · exact parseDigits_err h
    · split at h
      · exact parseDigits_err h
      · split at h
        · exact parseDigits_err h
        · split at h
          · simp at h
          · injection h with h
            exact h.symm
  · exact parseDigits_err h

/-- A failed `int(s, 0)` is always a `ValueError`. -/
theorem pyIntBase0_err {s : String} {e : PyExc}
    (h : pyIntBase0 s = Except.error e) : e = PyExc.valueError := by
  unfold pyIntBase0 at h
  split at h <;>
  · rcases except_bind_err_iff.mp h with h' | ⟨a, ha, hpa⟩
    · exact pyIntUnsigned0_err h'
    · simp [except_pure] at hpa

/-- A failed dict subscript is always the `KeyError` of its key. -/
theorem getKey_err {o : Option α} {k : String} {e : PyExc}
    (h : getKey o k = Except.error e) : e = PyExc.keyError k := by
  cases o with
  | none =>
    injection h with h
    exact h.symm
  | some v => simp [getKey] at h

/-- A failed `int(d[k], 0)` is never a network exception. -/
theorem getInt0_not_network {f : Option String} {k : String} {e : PyExc}
    (h : getInt0 f k = Except.error e) : isNetworkExc e = false := by
  unfold getInt0 at h
  rcases except_bind_err_iff.mp h with h' | ⟨s, hs, hps⟩
  · rw [getKey_err h']
    rfl
  · rw [pyIntBase0_err hps]
    rfl

/-- A failed transaction loop is never a network exception. -/
theorem processTxs_not_network (ts : Int) :
    ∀ (txs : List RawTx) (e : PyExc),
      processTxs txs ts = Except.error e → isNetworkExc e = false := by
  intro txs
  induction txs with
  | nil =>
    intro e h
    simp [processTxs] at h
  | cons tx rest ih =>
    intro e h
    rw [processTxs] at h
    rcases except_bind_err_iff.mp h with h' | ⟨bn, hbn, h⟩
    · exact getInt0_not_network h'
    rcases except_bind_err_iff.mp h with h' | ⟨vw, hvw, h⟩
    · exact getInt0_not_network h'
    rcases except_bind_err_iff.mp h with h' | ⟨hsh, hhsh, h⟩
    · rw [getKey_err h']
      rfl
    rcases except_bind_err_iff.mp h with h' | ⟨p, hp, h⟩
    · exact ih e h'
    · obtain ⟨a, b, c⟩ := p
      simp [except_pure] at h

/-- Any exception raised by `process_block` (KeyError on a missing field,
ValueError on a malformed numeral) is NOT one of the network exceptions
caught by `fetch`. -/
theorem process_block_not_network {resp : RpcResponse} {actions : List Action}
    {e : PyExc} (h : process_block resp actions = Except.error e) :
    isNetworkExc e = false := by
  rw [process_block] at h
  rcases except_bind_err_iff.mp h with h' | ⟨block, hblock, h⟩
  · rw [getKey_err h']
    rfl
  rcases except_bind_err_iff.mp h with h' | ⟨txsRaw, htxsRaw, h⟩
  · rw [getKey_err h']
    rfl
  rcases except_bind_err_iff.mp h with h' | ⟨bn, hbn, h⟩
  · exact getInt0_not_network h'
  rcases except_bind_err_iff.mp h with h' | ⟨bts, hbts, h⟩
  · exact getInt0_not_network h'
  rcases except_bind_err_iff.mp h with h' | ⟨p, hp, h⟩
  · exact processTxs_not_network _ _ _ h'
  obtain ⟨tacts, thashes, tvsum⟩ := p
  rcases except_bind_err_iff.mp h with h' | ⟨gl, hgl, h⟩
  · exact getInt0_not_network h'
  rcases except_bind_err_iff.mp h with h' | ⟨gu, hgu, h⟩
  · exact getInt0_not_network h'
  rcases except_bind_err_iff.mp h with h' | ⟨sz, hsz, h⟩
  · exact getInt0_not_network h'
  · simp [except_pure] at h

/-- C5 counterexample: in a chunk containing the malformed block 100 (its
payload lacks the `transactions` key) and the healthy block 101, the run of
the chunk terminates with the uncaught `KeyError` instead of skipping only
block 100: the sibling block 101 is never processed and the chunk crashes. -/
theorem C5_counterexample :
    run [100, 101] c5Oracle process_block ⟨[], [], []⟩ =
      Except.error (PyExc.keyError "transactions") := by
  decide

/-- C5 (amended): a normalization failure (malformed or missing required
field) is NOT isolated to its block: the `except` clause of `fetch` catches
only network exceptions, so the `KeyError`/`ValueError` raised by
`process_block` propagates out of `fetch` and aborts the chunk's
processing. -/
theorem C5_normalization_error_uncaught (resp : RpcResponse) (b : Int)
    (st : IngestState) (e : PyExc)
    (hfail : process_block resp st.actions = Except.error e) :
    fetch (Except.ok resp) process_block b st = Except.error e := by
  have hnn := process_block_not_network hfail
  unfold fetch
  simp only [except_bind_ok]
  rw [hfail]
  simp [hnn]

theorem C5_normalization_error_uncaught_witness :
    process_block (⟨some c5BadBlock⟩ : RpcResponse) (IngestState.mk [] [] []).actions =
      Except.error (PyExc.keyError "transactions") ∧
    fetch (Except.ok ⟨some c5BadBlock⟩) process_block 100 ⟨[], [], []⟩ =
      Except.error (PyExc.keyError "transactions") :=
  ⟨by decide,
   C5_normalization_error_uncaught ⟨some c5BadBlock⟩ 100 ⟨[], [], []⟩ _ (by decide)⟩

/-- C6 counterexample: the error-log record written for a failed fetch is
the string "block: 7" alone (line 59) — it is identical for an
`aiohttp.ClientError` and an `asyncio.TimeoutError`, so the error log does
not record the error together with the block number; the error text is only
printed to standard output (line 60). -/
theorem C6_counterexample :
    fetch (Except.error PyExc.clientError) process_block 7 ⟨[], [], []⟩ =
      Except.ok ⟨[], ["block: 7"], ["Issue with block 7:\nClientError\n"]⟩ ∧
    fetch (Except.error PyExc.timeoutError) process_block 7 ⟨[], [], []⟩ =
      Except.ok ⟨[], ["block: 7"], ["Issue with block 7:\nTimeoutError\n"]⟩ := by
  constructor <;> decide

/-- C6 (amended): when the fetch of a block fails with a network error or
timeout, the block number is recorded in the error log (entry "block: n"),
the block number and the error text are printed to standard output, the
block contributes no actions, no exception reaches the caller, and the rest
of the chunk is processed exactly as if the failed block had merely been
logged. -/
theorem C6_network_error_isolated (b : Int) (rest : List Int)
    (roundtrips : Int → Except PyExc RpcResponse) (e : PyExc)
    (he : isNetworkExc e = true) (hb : roundtrips b = Except.error e)
    (st : IngestState) :
    run (b :: rest) roundtrips process_block st =
      run rest roundtrips process_block
        ⟨st.actions,
         st.errorLog ++ ["block: " ++ toString b],
         st.printed ++
           ["Issue with block " ++ toString b ++ ":\n" ++ pyExcMsg e ++ "\n"]⟩ := by
  have hf : fetch (roundtrips b) process_block b st =
      Except.ok ⟨st.actions, st.errorLog ++ ["block: " ++ toString b],
        st.printed ++
          ["Issue with block " ++ toString b ++ ":\n" ++ pyExcMsg e ++ "\n"]⟩ := by
    unfold fetch
    rw [hb]
    simp [except_bind_err, he]
  rw [run, hf, except_bind_ok]

theorem C6_network_error_isolated_witness :
    isNetworkExc PyExc.timeoutError = true ∧
    (fun _ : Int => (Except.error PyExc.timeoutError : Except PyExc RpcResponse)) 7 =
      Except.error PyExc.timeoutError ∧
    run [7] (fun _ => Except.error PyExc.timeoutError) process_block ⟨[], [], []⟩ =
      run [] (fun _ => Except.error PyExc.timeoutError) process_block
        ⟨[], [] ++ ["block: " ++ toString (7 : Int)],
         [] ++ ["Issue with block " ++ toString (7 : Int) ++ ":\n" ++
           pyExcMsg PyExc.timeoutError ++ "\n"]⟩ :=
  ⟨rfl, rfl,
   C6_network_error_isolated 7 [] (fun _ => Except.error PyExc.timeoutError)
     PyExc.timeoutError rfl rfl ⟨[], [], []⟩⟩

/-- Every action is a block action or a transaction action, so the Python
guard `if blocks or txs:` holds exactly when the chunk produced any action
at all. -/
theorem commit_guard (acts : List Action) :
    (acts.filter isBlockAction ≠ [] ∨ acts.filter isTxAction ≠ []) ↔ acts ≠ [] := by
  cases acts with
  | nil => simp
  | cons a rest =>
    constructor
    · intro _
      simp
    · intro _
      cases a with
      | txAction i s =>
        right
        simp [List.filter_cons, isTxAction]
      | blockAction i s =>
        left
        simp [List.filter_cons, isBlockAction]

/-- Restricting to the block actions first does not change the extracted
block ids. -/
theorem blockActionIds_filter (acts : List Action) :
    blockActionIds (acts.filter isBlockAction) = blockActionIds acts := by
  induction acts with
  | nil => rfl
  | cons a rest ih =>
    cases a with
    | txAction i s => simpa [blockActionIds, List.filter_cons, isBlockAction] using ih
    | blockAction i s => simpa [blockActionIds, List.filter_cons, isBlockAction] using ih

/-- C7: when the bulk write reports (partial or total) failure through
`BulkIndexError`, the committer returns normally — it neither raises nor
aborts the worker — and it logs the block-document ids of the chunk, which
include every affected block id; a chunk with an empty action list performs
no bulk write at all and also returns without error. -/
theorem C7_commit_failure_isolated (acts : List Action)
    (outcome : Except BulkExc Unit) (ids : List Int)
    (hfail : outcome = Except.error (BulkExc.bulkIndexError ids)) :
    ∃ r : CommitResult, commit acts outcome = Except.ok r ∧
      (acts = [] → r.bulkCalled = false) ∧
      (acts ≠ [] → r.bulkCalled = true ∧
        r.loggedBlockIds = blockActionIds acts ∧
        ∀ i ∈ ids, i ∈ blockActionIds acts → i ∈ r.loggedBlockIds) := by
  subst hfail
  by_cases hempty : acts = []
  · subst hempty
    refine ⟨⟨false, [], none⟩, ?_, fun _ => rfl, fun h => absurd rfl h⟩
    simp [commit]
  · have hguard := (commit_guard acts).mpr hempty
    refine ⟨⟨true, blockActionIds (acts.filter isBlockAction), none⟩, ?_,
      fun h => absurd h hempty, fun _ => ⟨rfl, blockActionIds_filter acts, ?_⟩⟩
    · simp only [commit]
      rw [if_pos hguard]
    · intro i hi hmem
      show i ∈ blockActionIds (acts.filter isBlockAction)
      rw [blockActionIds_filter]
      exact hmem

theorem C7_commit_failure_isolated_witness :
    (Except.error (BulkExc.bulkIndexError [5]) : Except BulkExc Unit) =
      Except.error (BulkExc.bulkIndexError [5]) ∧
    ∃ r : CommitResult,
      commit [Action.blockAction 5 c2NBlock]
          (Except.error (BulkExc.bulkIndexError [5])) = Except.ok r ∧
      ([Action.blockAction 5 c2NBlock] = [] → r.bulkCalled = false) ∧
      ([Action.blockAction 5 c2NBlock] ≠ [] → r.bulkCalled = true ∧
        r.loggedBlockIds = blockActionIds [Action.blockAction 5 c2NBlock] ∧
        ∀ i ∈ [5], i ∈ blockActionIds [Action.blockAction 5 c2NBlock] →
          i ∈ r.loggedBlockIds) :=
  ⟨rfl, C7_commit_failure_isolated [Action.blockAction 5 c2NBlock] _ [5] rfl⟩

/-- One scheduler step conserves `avail + inflight`: acquiring moves a free
slot into an in-flight request, releasing moves it back. -/
theorem semStep_conserve {S : Nat} {s t : SemState} (h : SemStep S s t) :
    t.avail + t.inflight = s.avail + s.inflight := by
  cases h with
  | acquire hw ha =>
    simp only []
    omega
  | release hi success =>
    simp only []
    omega

/-- Along any execution from the start of a chunk run, `avail + inflight`
stays equal to the semaphore size. -/
theorem semReachable_inv (S n : Nat) (s : SemState)
    (h : Relation.ReflTransGen (SemStep S) (semInit S n) s) :
    s.avail + s.inflight = S := by
  induction h with
  | refl => simp [semInit]
  | tail hab hbc ih => exact (semStep_conserve hbc).trans ih

/-- C9: for every chunk, every number of fetch tasks and every semaphore
size S ≥ 1, in every state reachable by acquire/release steps of the
admission gate the number of in-flight fetches never exceeds S; each task
acquires a slot before issuing its request and releases it on completion,
on the success and the failure path alike (the `release` step carries the
completion outcome and frees the slot either way). -/
theorem C9_admission_gate_bound (S n : Nat) (_hS : 1 ≤ S) (s : SemState)
    (h : Relation.ReflTransGen (SemStep S) (semInit S n) s) :
    s.inflight ≤ S := by
  have hinv := semReachable_inv S n s h
  omega

theorem C9_admission_gate_bound_witness :
    1 ≤ SEM_SIZE ∧
    Relation.ReflTransGen (SemStep SEM_SIZE) (semInit SEM_SIZE 3)
      ⟨SEM_SIZE - 1, 2, 1, 0⟩ ∧
    (⟨SEM_SIZE - 1, 2, 1, 0⟩ : SemState).inflight ≤ SEM_SIZE :=
  ⟨by decide,
   Relation.ReflTransGen.single
     (SemStep.acquire (semInit SEM_SIZE 3) (by decide) (by decide)),
   C9_admission_gate_bound SEM_SIZE 3 (by decide) _
     (Relation.ReflTransGen.single
       (SemStep.acquire (semInit SEM_SIZE 3) (by decide) (by decide)))⟩

/-- C10 counterexample: the line "abc" passes the length filter (stripped,
non-empty, 3 ≤ 8 characters) yet contributes no block number — `int("abc")`
raises `ValueError` and the whole block-list comprehension dies, so the
claimed "contributes if and only if the filter passes" fails. -/
theorem C10_counterexample :
    lineKeep "abc\n" = true ∧
    parseBlockLines ["abc\n"] = Except.error PyExc.valueError := by
  constructor <;> decide

/-- C10 (amended): when the comprehension succeeds, the block numbers are
exactly the base-10 parses of the lines whose stripped content is non-empty
and at most 8 characters, in file order — in particular any longer line is
silently dropped; a filter-passing line that is not a decimal numeral makes
the comprehension raise `ValueError` instead of contributing. -/
theorem C10_line_filter (content : List String) (out : List Int)
    (h : parseBlockLines content = Except.ok out) :
    List.Forall₂ (fun line n => pyIntBase10 line = Except.ok n)
      (content.filter lineKeep) out := by
  induction content generalizing out with
  | nil =>
    simp only [parseBlockLines, Except.ok.injEq] at h
    subst h
    simp
  | cons x rest ih =>
    rw [parseBlockLines] at h
    by_cases hk : lineKeep x = true
    · rw [if_pos hk] at h
      obtain ⟨n, hn, h⟩ := except_bind_ok_iff.mp h
      obtain ⟨ns, hns, h⟩ := except_bind_ok_iff.mp h
      simp only [except_pure, Except.ok.injEq] at h
      subst h
      rw [List.filter_cons_of_pos hk]
      exact List.Forall₂.cons hn (ih ns hns)
    · rw [if_neg hk] at h
      rw [List.filter_cons_of_neg (by simpa using hk)]
      exact ih out h

theorem C10_line_filter_witness :
    parseBlockLines ["100\n", "123456789\n", "   \n", "42"] = Except.ok [100, 42] ∧
    List.Forall₂ (fun line n => pyIntBase10 line = Except.ok n)
      ((["100\n", "123456789\n", "   \n", "42"]).filter lineKeep) [100, 42] :=
  ⟨by decide, C10_line_filter _ _ (by decide)⟩
